import Mathlib

/-!
Verification development for the rave-telegram-bot repository: a shallow
embedding of its credential pool, token ledger, issuance, revocation and
upload logic, with theorems checking the natural-language specification.

JavaScript strings are embedded as `List Char` (named `Str`); machine I/O
(Supabase/Redis calls) is embedded as explicit state passing over the data
those calls read and write.  The repository contains several near-identical
variants of the bot; where the claims cite more than one variant, each cited
function is embedded separately and named after its source symbol.
-/

/-- JavaScript strings, embedded as lists of characters. -/
abbrev Str := List Char

/-! ### Credential parsing (src/unnamed/part_001 `parseLoginKey`, and the
inline parsers of `issueLinkForUser` in the Redis variant and part_000;
`issueLink` of part_002 uses a different, destructuring split). -/

/-- Embedding of JavaScript `s.split(sep)` for a one-character separator:
splits into the (never empty) list of separator-free segments. -/
def splitOnChar (c : Char) : List Char → List (List Char)
  | [] => [[]]
  | x :: xs =>
    match splitOnChar c xs with
    | [] => [[]]
    | h :: t => if x = c then [] :: h :: t else (x :: h) :: t

/-- Embedding of JavaScript `parts.join(sep)` for a one-character separator. -/
def intercalateChar (c : Char) : List (List Char) → List Char
  | [] => []
  | [p] => p
  | p :: q :: r => p ++ c :: intercalateChar c (q :: r)

/-- The synthesized login used when a pool value has no colon:
`user_${Date.now()}` with `now` already rendered to characters. -/
def placeholderLogin (now : Str) : Str :=
  'u' :: 's' :: 'e' :: 'r' :: '_' :: now

/-- part_001 `parseLoginKey`: first-colon split.  `parts = s.split(":")`;
if at least two parts, login is the first part and the key re-joins the
rest with `":"`; otherwise the login is synthesized from the timestamp and
the key is the whole value. -/
def parseLoginKey (now : Str) (line : Str) : Str × Str :=
  match splitOnChar ':' line with
  | login :: k :: rest => (login, intercalateChar ':' (k :: rest))
  | _ => (placeholderLogin now, line)

/-- part_002 `issueLink` line 44: `const [login, key] = item.value.split(":")`.
Destructuring keeps only the first two segments: the login is segment 0 and
the key is segment 1 when present (`undefined`, i.e. `none`, otherwise). -/
def splitDestructure (line : Str) : Str × Option Str :=
  ((splitOnChar ':' line).headD [], (splitOnChar ':' line)[1]?)

/-! ### Pool store (Supabase `pool_items` table). -/

/-- One row of the `pool_items` table: `id` (assigned ascending at insert),
`value` (the raw `login:key` line) and the `used` flag (`used_at` null/non-null
in the part_001 first variant, isomorphic to a Boolean). -/
structure PoolEntry where
  id : Nat
  value : Str
  used : Bool
deriving DecidableEq

abbrev Pool := List PoolEntry

/-- The row returned by `select ... .eq("used", false).order("id", ascending).limit(1)`:
the unused entry with the smallest id, if any. -/
def oldestUnused (pool : Pool) : Option PoolEntry :=
  pool.foldl (fun acc e =>
    if e.used = true then acc
    else
      match acc with
      | none => some e
      | some b2 => if e.id < b2.id then some e else some b2) none

/-- The unconditional update of part_000 `popPoolItem` / part_002 `issueLink`:
`update({ used: true }).eq("id", i)` — no `used = false` precondition. -/
def markUsed (pool : Pool) (i : Nat) : Pool :=
  pool.map (fun e => if e.id = i then { e with used := true } else e)

/-- The conditional update of part_001 `popPoolItemWithRetry`:
`update({ used: true, ... }).eq("id", i).eq("used", false).select(...)`.
Returns the updated pool and whether any row matched (the update applied). -/
def condMarkUsed (pool : Pool) (i : Nat) : Pool × Bool :=
  (pool.map (fun e => if e.id = i ∧ e.used = false then { e with used := true } else e),
   pool.any (fun e => decide (e.id = i ∧ e.used = false)))

/-- part_000 `popPoolItem` (lines 88–111): select the oldest unused row, then
mark it used with an unconditional update, returning its value. -/
def popPoolItem (pool : Pool) : Option Str × Pool :=
  match oldestUnused pool with
  | none => (none, pool)
  | some e => (some e.value, markUsed pool e.id)

/-- part_001 `popPoolItemWithRetry` run by a single caller with no
interleaving: select the oldest unused row, then conditionally mark it used.
(The concurrent behaviour is modelled separately below.) -/
def popPoolItemSeq (pool : Pool) : Option Str × Pool :=
  match oldestUnused pool with
  | none => (none, pool)
  | some e => (some e.value, (condMarkUsed pool e.id).1)

/-- Repeated sequential single-caller claims, collecting each claim's result. -/
def seqClaims : Nat → Pool → List (Option Str)
  | 0, _ => []
  | n + 1, pool =>
    let r := popPoolItemSeq pool
    r.1 :: seqClaims n r.2

/-- A selector standing for part_002's
`select("*").eq("used", false).limit(1)` — no `order` clause, so the backend
may return any unused row.  This particular selector returns the unused row
with the greatest id, one behaviour the query admits. -/
def chooseNewestUnused (pool : Pool) : Option PoolEntry :=
  pool.foldl (fun acc e =>
    if e.used = true then acc
    else
      match acc with
      | none => some e
      | some b2 => if b2.id < e.id then some e else some b2) none

/-- part_002 `issueLink` pool step, parameterized by the row the unordered
select returns: take that row's value and mark it used unconditionally. -/
def p002FirstClaim (select : Pool → Option PoolEntry) (pool : Pool) :
    Option Str × Pool :=
  match select pool with
  | none => (none, pool)
  | some e => (some e.value, markUsed pool e.id)

/-! ### Concurrent claiming (claim C1).

Each inbound `/link` request runs `popPoolItemWithRetry` (part_001) or
`popPoolItem` (part_000) against the shared `pool_items` table.  Each
Supabase call is one atomic step against the shared state; steps of
different requests interleave arbitrarily.  A claimant is a small state
machine; a schedule is the list of which claimant takes the next step. -/

/-- The per-request program counter of a claimant.
`ready t`: about to run the select, with `t` loop iterations remaining;
`selected t i`: the select returned the row with id `i`, about to update;
`done r`: finished, having claimed row `r` (`none` = no entry obtained). -/
inductive ClaimState where
  | ready (tries : Nat)
  | selected (tries : Nat) (id : Nat)
  | done (res : Option Nat)
deriving DecidableEq

/-- One atomic step of part_001 `popPoolItemWithRetry`: the select (ordered,
`used = false`, limit 1) or the conditional update
(`.eq("id", i).eq("used", false)`).  A failed conditional update consumes one
retry; exhausted retries end with no entry. -/
def retryStep (pool : Pool) : ClaimState → Pool × ClaimState
  | ClaimState.ready 0 => (pool, ClaimState.done none)
  | ClaimState.ready (t + 1) =>
    match oldestUnused pool with
    | none => (pool, ClaimState.done none)
    | some e => (pool, ClaimState.selected (t + 1) e.id)
  | ClaimState.selected t i =>
    let r := condMarkUsed pool i
    if r.2 = true then (r.1, ClaimState.done (some i))
    else (r.1, ClaimState.ready (t - 1))
  | ClaimState.done r => (pool, ClaimState.done r)

/-- One atomic step of part_000 `popPoolItem`: the same select, but the update
is unconditional (`.eq("id", i)` only) and the caller always treats the
selected row as its own. -/
def simpleStep (pool : Pool) : ClaimState → Pool × ClaimState
  | ClaimState.ready _ =>
    match oldestUnused pool with
    | none => (pool, ClaimState.done none)
    | some e => (pool, ClaimState.selected 0 e.id)
  | ClaimState.selected _ i => (markUsed pool i, ClaimState.done (some i))
  | ClaimState.done r => (pool, ClaimState.done r)

/-- Let claimant `j` take its next atomic step against the shared pool. -/
def stepProc (step1 : Pool → ClaimState → Pool × ClaimState)
    (s : Pool × List ClaimState) (j : Nat) : Pool × List ClaimState :=
  match s.2[j]? with
  | none => s
  | some ps =>
    let r := step1 s.1 ps
    (r.1, s.2.set j r.2)

/-- Run a whole interleaving: the schedule names, in order, which claimant
takes each atomic step. -/
def runSched (step1 : Pool → ClaimState → Pool × ClaimState) :
    List Nat → Pool × List ClaimState → Pool × List ClaimState
  | [], s => s
  | j :: rest, s => runSched step1 rest (stepProc step1 s j)

/-- Whether a claimant has finished holding the entry with id `i`. -/
def claimsId (i : Nat) (p : ClaimState) : Bool :=
  decide (p = ClaimState.done (some i))

/-- How many claimants have finished holding the entry with id `i`. -/
def claimCount (procs : List ClaimState) (i : Nat) : Nat :=
  procs.countP (claimsId i)

/-- No row with id `i` is still unclaimed in `pool`. -/
def noUnusedId (pool : Pool) (i : Nat) : Prop :=
  ∀ e ∈ pool, e.id = i → e.used = true

/-- The at-most-once invariant: every entry id is held by at most one
finished claimant, and an id someone holds has no unclaimed row left. -/
def AtMostOnceInv (pool : Pool) (procs : List ClaimState) : Prop :=
  ∀ i, claimCount procs i ≤ 1 ∧ (1 ≤ claimCount procs i → noUnusedId pool i)

/-! ### Redis list model (the Upstash variant of index.js; claims C2, C8, C10). -/

/-- Redis `LPUSH key x`: prepend to the list. -/
def lpush (l : List α) (x : α) : List α := x :: l

/-- Redis `RPOP key`: remove and return the last element, if any. -/
def rpop (l : List α) : Option α × List α :=
  match l.getLast? with
  | none => (none, l)
  | some x => (some x, l.dropLast)

/-- The `/upload` loop `for (const line of lines) await redis(["LPUSH","pool",line])`. -/
def uploadRedis (pool : List α) (lines : List α) : List α :=
  lines.foldl lpush pool

/-- Up to `n` successive `RPOP`s, collecting the popped values in order. -/
def rpopAll : Nat → List α → List α
  | 0, _ => []
  | n + 1, l =>
    match rpop l with
    | (none, _) => []
    | (some x, l2) => x :: rpopAll n l2

/-- index.js `pushIssued`: `LPUSH issued token` then `LTRIM issued 0 49`,
keeping only the 50 newest tokens. -/
def pushIssued (issued : List Str) (t : Str) : List Str :=
  (t :: issued).take 50

/-- index.js `/list`: `LRANGE issued 0 9`, the 10 newest retained tokens. -/
def listRecentTokens (issued : List Str) : List Str :=
  issued.take 10

/-! ### Token generator (claim C4). -/

/-- The base64url alphabet, as used by Node `Buffer.toString("base64url")`. -/
def b64Alphabet : Str :=
  "ABCDEFGHIJKLMNOPQRSTUVWXYZabcdefghijklmnopqrstuvwxyz0123456789-_".toList

/-- The base64url digit for a 6-bit value. -/
def b64Char (n : Nat) : Char := b64Alphabet.getD n 'A'

/-- Unpadded base64url encoding of a byte sequence (Node's `base64url`). -/
def b64urlEncode : List Nat → List Char
  | a :: b :: c :: rest =>
    b64Char (a / 4) :: b64Char (a % 4 * 16 + b / 16) ::
      b64Char (b % 16 * 4 + c / 64) :: b64Char (c % 64) :: b64urlEncode rest
  | [a, b] => [b64Char (a / 4), b64Char (a % 4 * 16 + b / 16), b64Char (b % 16 * 4)]
  | [a] => [b64Char (a / 4), b64Char (a % 4 * 16)]
  | [] => []

/-- The character class kept by `replace(/[^a-zA-Z0-9]/g, "")`. -/
def isAlnumChar (c : Char) : Bool :=
  ('a' ≤ c && c ≤ 'z') || ('A' ≤ c && c ≤ 'Z') || ('0' ≤ c && c ≤ '9')

/-- `genToken` of index.js / part_000 / part_001: base64url-encode the random
bytes, strip every non-alphanumeric character, and keep the first `len`
characters.  The random bytes are the function's input here. -/
def genToken (bytes : List Nat) (len : Nat) : Str :=
  ((b64urlEncode bytes).filter isAlnumChar).take len

/-- One hexadecimal digit. -/
def hexDigit (n : Nat) : Char := "0123456789abcdef".toList.getD n '0'

/-- Lowercase hex encoding of a byte sequence (Node `toString("hex")`). -/
def hexEncode : List Nat → List Char
  | [] => []
  | b :: rest => hexDigit (b / 16) :: hexDigit (b % 16) :: hexEncode rest

/-- `genToken` of part_002 and the Supabase half of index.js:
`randomBytes(16).toString("hex").slice(0, 10)`. -/
def genTokenHex (bytes : List Nat) : Str :=
  (hexEncode bytes).take 10

/-! ### Token ledger (Supabase `tokens` table / Redis `token:<t>` keys;
claims C5, C6). -/

/-- One ledger record: the fields the claims inspect. -/
structure TokenRec where
  login : Str
  key : Str
  issuedToId : Str
  createdAt : Nat
  revoked : Bool
  revokedAt : Option Nat
deriving DecidableEq

/-- The ledger: `tokens` table rows keyed by the token string (Redis keys
`token:<t>` are the same shape). -/
abbrev Ledger := List (Str × TokenRec)

/-- part_001 `insertTokenRecord` / part_000 `saveTokenRecord` /
index.js-Supabase `insertToken`: a plain `insert` into `tokens`, whose
primary key is `token`; a duplicate key makes the insert error (`none`). -/
def insertTokenRecord (ledger : Ledger) (tok : Str) (record : TokenRec) :
    Option Ledger :=
  if ledger.any (fun p => p.1 == tok) then none
  else some (ledger ++ [(tok, record)])

/-- part_001 first-variant `saveTokenRecord`
(`upsert(rec, { onConflict: "token" })`) and the Redis
`saveTokenRecord` (`SET token:<t> rec`): insert-or-replace, never an error. -/
def saveTokenRecord (ledger : Ledger) (tok : Str) (record : TokenRec) : Ledger :=
  if ledger.any (fun p => p.1 == tok) then
    ledger.map (fun p => if p.1 == tok then (p.1, record) else p)
  else ledger ++ [(tok, record)]

/-- part_001 `revokeToken` (lines 478–493):
`update({revoked: true, revoked_at: now}).eq("token", tok).select("*").limit(1)`,
returning the first updated row (`data?.[0] || null`) and the new table. -/
def revokeToken (ledger : Ledger) (tok : Str) (now : Nat) :
    Option TokenRec × Ledger :=
  let ledger2 := ledger.map (fun p =>
    if p.1 == tok then (p.1, { p.2 with revoked := true, revokedAt := some now })
    else p)
  (((ledger2.filter (fun p => p.1 == tok)).head?).map (fun p => p.2), ledger2)

/-! ### Administrator gating (claim C7). -/

/-- Decimal rendering of a numeric Telegram id, as `String(id)` produces. -/
def natToChars (n : Nat) : Str := (Nat.repr n).toList

/-- `String(ctx.from?.id || "")`: the actor id as a string, empty if absent. -/
def natIdStr (fromId : Option Nat) : Str :=
  match fromId with
  | some i => natToChars i
  | none => []

/-- index.js `isAdmin`: `ADMIN_IDS.includes(String(ctx.from?.id || ""))` —
a pure function of the actor id and the configured allow-list. -/
def isAdmin (adminIds : List Str) (fromId : Option Nat) : Bool :=
  adminIds.contains (natIdStr fromId)

/-- The reply of the inline-button delete handler. -/
inductive CbReply where
  | noAccess
  | notFound
  | deleted
deriving DecidableEq

/-- part_001 `handleDelete` (lines 569–582): non-admins get the
"Нет доступа" alert and nothing runs; otherwise `revokeToken` runs and a
missing token answers "Токен не найден". -/
def handleDelete (adminIds : List Str) (fromId : Option Nat) (ledger : Ledger)
    (tok : Str) (now : Nat) : CbReply × Ledger :=
  if isAdmin adminIds fromId then
    match revokeToken ledger tok now with
    | (none, l2) => (CbReply.notFound, l2)
    | (some _, l2) => (CbReply.deleted, l2)
  else (CbReply.noAccess, ledger)

/-- The reply of the `/revoke` command handler. -/
inductive CmdReply where
  | ignored
  | usage
  | notFound
  | ok
deriving DecidableEq

/-- The `/revoke` command (index.js lines 210–227 shape, part_001 633–650):
non-admins are silently ignored (`if (!isAdmin(ctx)) return;`), a missing
argument answers usage, and otherwise the token is revoked. -/
def revokeCommand (adminIds : List Str) (fromId : Option Nat) (ledger : Ledger)
    (tokArg : Option Str) (now : Nat) : CmdReply × Ledger :=
  if isAdmin adminIds fromId then
    match tokArg with
    | none => (CmdReply.usage, ledger)
    | some tok =>
      match revokeToken ledger tok now with
      | (none, l2) => (CmdReply.notFound, l2)
      | (some _, l2) => (CmdReply.ok, l2)
  else (CmdReply.ignored, ledger)

/-! ### Issuance coordinator, Redis variant (index.js lines 109–161;
claims C8, C10). -/

/-- The durable state the Redis variant touches: the `pool` list, the
`token:<t>` records and the `issued` list. -/
structure BotState where
  pool : List Str
  tokens : Ledger
  issued : List Str
deriving DecidableEq

/-- What `issueLinkForUser` tells the requester. -/
inductive IssueOutcome where
  | empty
  | issued (token : Str)
deriving DecidableEq

/-- index.js `issueLinkForUser`: `RPOP pool`; on empty, reply that no
credentials are available and change nothing; otherwise parse the value
(first-colon split), generate the token from the random bytes, `SET` the
record and `pushIssued` the token. -/
def issueLinkForUser (st : BotState) (bytes : List Nat) (now : Nat)
    (uid : Option Nat) : IssueOutcome × BotState :=
  match rpop st.pool with
  | (none, p2) => (IssueOutcome.empty, { st with pool := p2 })
  | (some item, p2) =>
    let lk := parseLoginKey (natToChars now) item
    let token := genToken bytes 10
    let record : TokenRec :=
      { login := lk.1, key := lk.2, issuedToId := natIdStr uid,
        createdAt := now, revoked := false, revokedAt := none }
    (IssueOutcome.issued token,
      { pool := p2,
        tokens := saveTokenRecord st.tokens token record,
        issued := pushIssued st.issued token })

/-! ### Bulk upload (claim C9). -/

/-- The whitespace characters `String.prototype.trim` strips (ASCII part). -/
def isWS (c : Char) : Bool :=
  c = ' ' || c = '\t' || c = '\n' || c = '\r' || c = '\x0b' || c = '\x0c'

/-- JavaScript `l.trim()`: drop leading and trailing whitespace. -/
def jsTrim (l : Str) : Str :=
  ((l.dropWhile isWS).reverse.dropWhile isWS).reverse

/-- JavaScript `text.split(/\r?\n/)`: cut at every `\n`, also consuming an
immediately preceding `\r`. -/
def splitLinesJS : Str → List Str
  | [] => [[]]
  | '\r' :: '\n' :: rest => [] :: splitLinesJS rest
  | '\n' :: rest => [] :: splitLinesJS rest
  | c :: rest =>
    match splitLinesJS rest with
    | [] => [[c]]
    | h :: t => (c :: h) :: t

/-- The upload normalization pipeline:
`text.split(/\r?\n/).map((l) => l.trim()).filter(Boolean)`. -/
def normalizeLines (text : Str) : List Str :=
  ((splitLinesJS text).map jsTrim).filter (fun l => !l.isEmpty)

/-- What the `/upload` handler answers. -/
inductive UploadReply where
  | usage
  | loaded (n : Nat)
deriving DecidableEq

/-- The Redis `/upload` text path (index.js lines 282–299): normalize the
body; with no usable lines reply with the usage message and touch nothing;
otherwise `LPUSH` every line and report the line count. -/
def uploadText (pool : List Str) (body : Str) : UploadReply × List Str :=
  let lines := normalizeLines body
  if lines.isEmpty then (UploadReply.usage, pool)
  else (UploadReply.loaded lines.length, lines.foldl lpush pool)

/-- part_001 `insertPoolItems` (lines 447–460): insert the rows in chunks of
500, accumulating the inserted count; returns the grown table and the count. -/
def insertPoolItems (pool : List Str) (rows : List Str) : List Str × Nat :=
  if h : rows = [] then (pool, 0)
  else
    let chunk := rows.take 500
    let r := insertPoolItems (pool ++ chunk) (rows.drop 500)
    (r.1, chunk.length + r.2)
termination_by rows.length
decreasing_by
  simp only [List.length_drop]
  have : rows.length ≠ 0 := fun hl => h (List.eq_nil_of_length_eq_zero hl)
  omega

/-! ### Sample records used by concrete witnesses and counterexamples. -/

/-- A sample active ledger record. -/
def recA : TokenRec :=
  { login := ['u'], key := ['p'], issuedToId := ['1'], createdAt := 0,
    revoked := false, revokedAt := none }

/-- A second, different sample ledger record. -/
def recB : TokenRec :=
  { login := ['v'], key := ['q'], issuedToId := ['2'], createdAt := 1,
    revoked := false, revokedAt := none }

/-- A sample record already revoked at time 1. -/
def recRevoked1 : TokenRec :=
  { login := ['u'], key := ['p'], issuedToId := ['1'], createdAt := 0,
    revoked := true, revokedAt := some 1 }

/-! ## Theorems -/

/-! ### General helper lemmas. -/

theorem hexEncode_length (bs : List Nat) : (hexEncode bs).length = 2 * bs.length := by
  induction bs with
  | nil => rfl
  | cons b rest ih => simp [hexEncode, ih]; ring

theorem hexDigit_alnum (n : Nat) (h : n < 16) : isAlnumChar (hexDigit n) = true := by
  interval_cases n <;> decide

theorem hexEncode_alnum (bs : List Nat) (hb : ∀ b ∈ bs, b < 256) :
    ∀ ch ∈ hexEncode bs, isAlnumChar ch = true := by
  induction bs with
  | nil => intro ch hch; simp [hexEncode] at hch
  | cons b rest ih =>
    intro ch hch
    have hb0 : b < 256 := hb b (List.mem_cons_self b rest)
    simp only [hexEncode, List.mem_cons] at hch
    rcases hch with h1 | h2 | h3
    · subst h1; exact hexDigit_alnum _ (Nat.div_lt_of_lt_mul (by omega))
    · subst h2; exact hexDigit_alnum _ (Nat.mod_lt _ (by omega))
    · exact ih (fun x hx => hb x (List.mem_cons_of_mem _ hx)) ch h3

/-! ### Claim C4 — token generation. -/

/-- C4 (amended): every generated token is purely alphanumeric and at most
`len` (10) characters long; the hex-variant generator always returns exactly
10 characters.  The base64url variants do not guarantee the full length: the
non-alphanumeric strip can leave fewer than 10 characters (see the
counterexample). -/
theorem c4_token_alnum_and_bounded (bytes : List Nat) (len : Nat)
    (hexBytes : List Nat) (hlen : hexBytes.length = 16)
    (hb : ∀ b ∈ hexBytes, b < 256) :
    (∀ ch ∈ genToken bytes len, isAlnumChar ch = true) ∧
    (genToken bytes len).length ≤ len ∧
    (genTokenHex hexBytes).length = 10 ∧
    ∀ ch ∈ genTokenHex hexBytes, isAlnumChar ch = true := by
  refine ⟨?_, ?_, ?_, ?_⟩
  · intro ch hch
    have := List.mem_of_mem_take hch
    exact (List.mem_filter.mp this).2
  · simp [genToken, List.length_take]
  · simp [genTokenHex, List.length_take, hexEncode_length, hlen]
  · intro ch hch
    exact hexEncode_alnum hexBytes hb ch (List.mem_of_mem_take hch)

theorem c4_token_alnum_and_bounded_witness :
    (genTokenHex (List.replicate 16 0)).length = 10 ∧
    (genToken [255] 10).length ≤ 10 :=
  ⟨(c4_token_alnum_and_bounded [255] 10 (List.replicate 16 0) (by decide)
      (by decide)).2.2.1,
   (c4_token_alnum_and_bounded [255] 10 (List.replicate 16 0) (by decide)
      (by decide)).2.1⟩

/-- C4 counterexample: `genToken` does not have fixed length 10.  On the
byte string of sixteen `0xFF` bytes the base64url encoding is twenty-one
`'_'` characters followed by `'w'`; the non-alphanumeric strip leaves the
single character `'w'`, so the returned token has length 1, not 10. -/
theorem c4_counterexample :
    genToken (List.replicate 16 255) 10 = ['w'] ∧
    (genToken (List.replicate 16 255) 10).length ≠ 10 := by decide

/-! ### Claim C10 — Redis issued-list retention cap. -/

/-- C10: `pushIssued` (`LPUSH` then `LTRIM 0 49`) keeps the `issued` list at
50 entries at most; when the list holds the 50 newest tokens of the issuance
history it still does after another issuance; and `/list` (`LRANGE 0 9`) only
reports tokens still in the retained list. -/
theorem c10_issued_list_capped (issued : List Str) (t : Str) (hist : List Str) :
    (pushIssued issued t).length ≤ 50 ∧
    (issued = hist.take 50 → pushIssued issued t = (t :: hist).take 50) ∧
    (∀ x ∈ listRecentTokens issued, x ∈ issued) := by
  refine ⟨?_, ?_, ?_⟩
  · simp [pushIssued, List.length_take]
  · intro h
    subst h
    show (t :: hist.take 50).take 50 = (t :: hist).take 50
    rw [show (50 : Nat) = 49 + 1 from rfl, List.take_succ_cons,
      List.take_succ_cons, List.take_take]
    norm_num
  · intro x hx
    exact List.mem_of_mem_take hx

theorem c10_issued_list_capped_witness :
    ([['a']] : List Str) = [['a']].take 50 ∧
    pushIssued [['a']] ['b'] = (['b'] :: [['a']]).take 50 :=
  ⟨by decide, (c10_issued_list_capped [['a']] ['b'] [['a']]).2.1 (by decide)⟩

/-! ### Claim C7 — administrator gating of revocation. -/

/-- C7: a non-administrator actor (one whose rendered id is not in
`ADMIN_IDS`) cannot revoke: the inline-button path answers the
"no access" alert and the `/revoke` command path is silently ignored, and in
both cases every ledger record is left unchanged.  `isAdmin` itself is a pure
function of exactly the actor id and the configured allow-list. -/
theorem c7_admin_gating (adminIds : List Str) (fromId : Option Nat)
    (ledger : Ledger) (tok : Str) (tokArg : Option Str) (now : Nat)
    (h : isAdmin adminIds fromId = false) :
    handleDelete adminIds fromId ledger tok now = (CbReply.noAccess, ledger) ∧
    revokeCommand adminIds fromId ledger tokArg now = (CmdReply.ignored, ledger) := by
  constructor <;> simp [handleDelete, revokeCommand, h]

theorem c7_admin_gating_witness :
    isAdmin [['1']] (some 2) = false ∧
    handleDelete [['1']] (some 2) [(['t'], recA)] ['t'] 0 =
      (CbReply.noAccess, [(['t'], recA)]) :=
  ⟨by decide,
   (c7_admin_gating [['1']] (some 2) [(['t'], recA)] ['t'] none 0 (by decide)).1⟩

/-! ### Claim C5 — ledger insert uniqueness. -/

/-- C5 (amended): the plain-insert paths (`insertTokenRecord`, part_000's
`saveTokenRecord`, index.js-Supabase `insertToken`) do fail on a duplicate
token and never overwrite: insertion errors exactly when the token is
already present, and a successful insertion means the token was absent and
the old records are preserved.  The upsert/`SET` path violates the claim —
see the counterexample. -/
theorem c5_insert_unique (ledger : Ledger) (tok : Str) (record r2 : TokenRec) :
    ((tok, r2) ∈ ledger → insertTokenRecord ledger tok record = none) ∧
    (∀ l2, insertTokenRecord ledger tok record = some l2 →
      (∀ r3, (tok, r3) ∉ ledger) ∧ l2 = ledger ++ [(tok, record)]) := by
  constructor
  · intro hmem
    have hany : ledger.any (fun p => p.1 == tok) = true :=
      List.any_eq_true.mpr ⟨(tok, r2), hmem, by simp⟩
    simp [insertTokenRecord, hany]
  · intro l2 hl2
    by_cases hany : ledger.any (fun p => p.1 == tok) = true
    · simp [insertTokenRecord, hany] at hl2
    · simp only [insertTokenRecord, if_neg hany, Option.some_inj] at hl2
      refine ⟨?_, hl2.symm⟩
      intro r3 hr3
      exact hany (List.any_eq_true.mpr ⟨(tok, r3), hr3, by simp⟩)

theorem c5_insert_unique_witness :
    ((['t'], recA) ∈ ([((['t'] : Str), recA)] : Ledger)) ∧
    insertTokenRecord [(['t'], recA)] ['t'] recB = none :=
  ⟨by decide, (c5_insert_unique [(['t'], recA)] ['t'] recB recA).1 (by decide)⟩

/-- C5 counterexample: the `upsert(..., { onConflict: "token" })` variant of
`saveTokenRecord` (part_001 lines 107–110) and the Redis `SET` variant do not
fail on a duplicate token — with the token already in the ledger the save
succeeds and silently replaces the stored record. -/
theorem c5_counterexample :
    saveTokenRecord [(['t'], recA)] ['t'] recB = [(['t'], recB)] ∧
    recB ≠ recA := by decide

/-! ### Claim C6 — revocation idempotence. -/

theorem revokeToken_mem (ledger : Ledger) (tok : Str) (now : Nat)
    (record : TokenRec) (h : (tok, record) ∈ ledger) :
    (tok, { record with revoked := true, revokedAt := some now }) ∈
      (revokeToken ledger tok now).2 :=
  List.mem_map.mpr ⟨(tok, record), h, by simp⟩

theorem revokeToken_fst_spec (ledger : Ledger) (tok : Str) (now : Nat)
    (r : TokenRec) (hr : (revokeToken ledger tok now).1 = some r) :
    r.revoked = true ∧ r.revokedAt = some now := by
  have hr2 : (((revokeToken ledger tok now).2.filter
      (fun p => p.1 == tok)).head?).map (fun p => p.2) = some r := hr
  cases hf : (revokeToken ledger tok now).2.filter (fun p => p.1 == tok) with
  | nil => rw [hf] at hr2; simp at hr2
  | cons q t =>
    rw [hf] at hr2
    simp only [List.head?_cons, Option.map_some'] at hr2
    have hq : q ∈ (revokeToken ledger tok now).2.filter (fun p => p.1 == tok) := by
      rw [hf]; exact List.mem_cons_self q t
    obtain ⟨hqm, hqt⟩ := List.mem_filter.mp hq
    have hqm2 : q ∈ ledger.map (fun p => if p.1 == tok then
        (p.1, { p.2 with revoked := true, revokedAt := some now }) else p) := hqm
    obtain ⟨p, hp, hfp⟩ := List.mem_map.mp hqm2
    by_cases hpt : (p.1 == tok) = true
    · rw [if_pos hpt] at hfp
      have hr3 : q.2 = r := by injection hr2
      rw [← hr3, ← hfp]
      exact ⟨rfl, rfl⟩
    · rw [if_neg hpt] at hfp
      rw [← hfp] at hqt
      exact absurd hqt hpt

theorem revokeToken_isSome (ledger : Ledger) (tok : Str) (now : Nat)
    (record : TokenRec) (h : (tok, record) ∈ ledger) :
    ((revokeToken ledger tok now).1).isSome = true := by
  have hmem := revokeToken_mem ledger tok now record h
  have hfil : (tok, { record with revoked := true, revokedAt := some now }) ∈
      (revokeToken ledger tok now).2.filter (fun p => p.1 == tok) :=
    List.mem_filter.mpr ⟨hmem, by simp⟩
  show ((((revokeToken ledger tok now).2.filter
      (fun p => p.1 == tok)).head?).map (fun p => p.2)).isSome = true
  cases hf : (revokeToken ledger tok now).2.filter (fun p => p.1 == tok) with
  | nil => rw [hf] at hfil; simp at hfil
  | cons q t => rfl

/-- C6 (amended): revoking an already-revoked token does succeed without
error and leaves the status revoked, but it does not preserve `revoked_at`:
every call unconditionally overwrites `revoked_at` with its own current time
(see the counterexample), so the record is not returned unchanged either. -/
theorem c6_revoke_idempotent_status (ledger : Ledger) (tok : Str)
    (record : TokenRec) (now now2 : Nat) (h : (tok, record) ∈ ledger) :
    ((revokeToken (revokeToken ledger tok now).2 tok now2).1).isSome = true ∧
    ∀ r, (revokeToken (revokeToken ledger tok now).2 tok now2).1 = some r →
      r.revoked = true ∧ r.revokedAt = some now2 := by
  have h1 := revokeToken_mem ledger tok now record h
  exact ⟨revokeToken_isSome _ tok now2 _ h1,
    fun r hr => revokeToken_fst_spec _ tok now2 r hr⟩

theorem c6_revoke_idempotent_status_witness :
    ((revokeToken (revokeToken [(['t'], recA)] ['t'] 5).2 ['t'] 7).1).isSome
      = true :=
  (c6_revoke_idempotent_status [(['t'], recA)] ['t'] recA 5 7 (by decide)).1

/-- C6 counterexample: the claim's requirement that a second revocation not
change `revoked_at` (or return the record unchanged) fails — revoking a
record already revoked at time 1 again at time 2 returns it with
`revoked_at` rewritten to 2. -/
theorem c6_counterexample :
    ((revokeToken [(['t'], recRevoked1)] ['t'] 2).1).map TokenRec.revokedAt
      = some (some 2) ∧
    recRevoked1.revokedAt = some 1 ∧ some (2 : Nat) ≠ some 1 := by decide

/-! ### Claim C3 — first-colon credential parsing. -/

theorem splitOnChar_ne_nil (c : Char) (l : List Char) : splitOnChar c l ≠ [] := by
  cases l with
  | nil => simp [splitOnChar]
  | cons x xs =>
    cases hs : splitOnChar c xs with
    | nil => simp [splitOnChar, hs]
    | cons h t =>
      simp only [splitOnChar, hs]
      split <;> simp

theorem intercalateChar_splitOnChar (c : Char) (l : List Char) :
    intercalateChar c (splitOnChar c l) = l := by
  induction l with
  | nil => rfl
  | cons x xs ih =>
    cases hs : splitOnChar c xs with
    | nil => exact absurd hs (splitOnChar_ne_nil c xs)
    | cons h t =>
      rw [hs] at ih
      simp only [splitOnChar, hs]
      by_cases hx : x = c
      · subst hx
        simp only [if_pos rfl]
        exact congrArg (List.cons x) ih
      · simp only [if_neg hx]
        cases t with
        | nil => exact congrArg (List.cons x) ih
        | cons t0 t1 => exact congrArg (List.cons x) ih

theorem splitOnChar_head_not_mem (c : Char) (l : List Char) (h0 : List Char)
    (t : List (List Char)) (hs : splitOnChar c l = h0 :: t) : c ∉ h0 := by
  induction l generalizing h0 t with
  | nil =>
    simp only [splitOnChar, List.cons.injEq] at hs
    rw [← hs.1]
    simp
  | cons x xs ih =>
    cases hs2 : splitOnChar c xs with
    | nil => exact absurd hs2 (splitOnChar_ne_nil c xs)
    | cons h1 t1 =>
      have hs3 : (if x = c then ([] : List Char) :: h1 :: t1
          else (x :: h1) :: t1) = h0 :: t := by
        rw [← hs]
        simp only [splitOnChar, hs2]
      by_cases hx : x = c
      · rw [if_pos hx] at hs3
        injection hs3 with e1 e2
        rw [← e1]
        simp
      · rw [if_neg hx] at hs3
        injection hs3 with e1 e2
        rw [← e1]
        intro hmem
        rcases List.mem_cons.mp hmem with h | h
        · exact hx h.symm
        · exact ih h1 t1 hs2 h

theorem splitOnChar_not_mem (c : Char) (l : List Char) (h : c ∉ l) :
    splitOnChar c l = [l] := by
  induction l with
  | nil => rfl
  | cons x xs ih =>
    have hx : ¬ x = c := fun e => h (by rw [e]; exact List.mem_cons_self c xs)
    have hxs : c ∉ xs := fun e => h (List.mem_cons_of_mem x e)
    simp only [splitOnChar, ih hxs, if_neg hx]

theorem splitOnChar_length_ge_two (c : Char) (l : List Char) (h : c ∈ l) :
    2 ≤ (splitOnChar c l).length := by
  induction l with
  | nil => simp at h
  | cons x xs ih =>
    cases hs : splitOnChar c xs with
    | nil => exact absurd hs (splitOnChar_ne_nil c xs)
    | cons h1 t1 =>
      simp only [splitOnChar, hs]
      by_cases hx : x = c
      · rw [if_pos hx]
        simp
      · rw [if_neg hx]
        rcases List.mem_cons.mp h with h2 | h2
        · exact absurd h2.symm hx
        · have h3 := ih h2
          rw [hs] at h3
          simp at h3 ⊢
          omega

/-- C3 (amended for part_002): the parsers of index.js, part_000 and
part_001 (`parseLoginKey`) are first-colon splits — with a colon present the
stored login is the (colon-free) prefix before the first colon and the key is
the entire remainder, and with no colon the login is the synthesized
timestamp placeholder and the key the whole value.  part_002's destructuring
split violates the claim — see the counterexample. -/
theorem c3_first_colon_split (line now : Str) :
    (':' ∈ line →
      ':' ∉ (parseLoginKey now line).1 ∧
      (parseLoginKey now line).1 ++ ':' :: (parseLoginKey now line).2 = line) ∧
    (':' ∉ line → parseLoginKey now line = (placeholderLogin now, line)) := by
  constructor
  · intro hmem
    have hlen := splitOnChar_length_ge_two ':' line hmem
    cases hs : splitOnChar ':' line with
    | nil => exact absurd hs (splitOnChar_ne_nil ':' line)
    | cons p rest =>
      cases rest with
      | nil => rw [hs] at hlen; simp at hlen
      | cons q r =>
        have hp : parseLoginKey now line = (p, intercalateChar ':' (q :: r)) := by
          simp only [parseLoginKey, hs]
        rw [hp]
        constructor
        · exact splitOnChar_head_not_mem ':' line p (q :: r) hs
        · show p ++ ':' :: intercalateChar ':' (q :: r) = line
          have hj := intercalateChar_splitOnChar ':' line
          rw [hs] at hj
          exact hj
  · intro hnm
    have hs := splitOnChar_not_mem ':' line hnm
    simp only [parseLoginKey, hs]

theorem c3_first_colon_split_witness :
    (':' ∈ (['l', 'o', 'g', 'i', 'n', ':', 's', 'e', 'c', ':', 'r', 'e', 't'] : Str)) ∧
    (':' ∉ (parseLoginKey ['1']
        ['l', 'o', 'g', 'i', 'n', ':', 's', 'e', 'c', ':', 'r', 'e', 't']).1 ∧
      (parseLoginKey ['1']
          ['l', 'o', 'g', 'i', 'n', ':', 's', 'e', 'c', ':', 'r', 'e', 't']).1 ++ ':' ::
        (parseLoginKey ['1']
          ['l', 'o', 'g', 'i', 'n', ':', 's', 'e', 'c', ':', 'r', 'e', 't']).2 =
        ['l', 'o', 'g', 'i', 'n', ':', 's', 'e', 'c', ':', 'r', 'e', 't']) :=
  ⟨by decide,
   (c3_first_colon_split
      ['l', 'o', 'g', 'i', 'n', ':', 's', 'e', 'c', ':', 'r', 'e', 't'] ['1']).1
      (by decide)⟩

/-- C3 counterexample: part_002's `const [login, key] = item.value.split(":")`
(cited as a source of the claim) keeps only the segment between the first and
second colon: on `login:sec:ret` the stored key is `sec`, not the claimed
full remainder `sec:ret`, and on a colon-free value the key is `undefined`
rather than the whole value. -/
theorem c3_counterexample :
    (splitDestructure
        ['l', 'o', 'g', 'i', 'n', ':', 's', 'e', 'c', ':', 'r', 'e', 't']).2
      = some ['s', 'e', 'c'] ∧
    (['s', 'e', 'c'] : Str) ≠ ['s', 'e', 'c', ':', 'r', 'e', 't'] ∧
    (splitDestructure ['o', 'n', 'l', 'y']).2 = none := by decide

/-! ### Claim C2 — FIFO claim order. -/

/-- C2: sequential single-caller claims are FIFO for the ordered variants.
With entries a, b, c inserted (ids 0, 1, 2, all unclaimed), three sequential
runs of the `order("id", ascending)` claim (part_001 `popPoolItemWithRetry`)
return a, b, c; and in the Redis variant, uploading lines a, b, c (`LPUSH`
each) into an empty pool and then claiming three times (`RPOP` each) also
returns a, b, c.  part_002's unordered select violates the claim — see
the counterexample. -/
theorem c2_fifo_claim_order (a b c : Str) :
    seqClaims 3 [⟨0, a, false⟩, ⟨1, b, false⟩, ⟨2, c, false⟩]
      = [some a, some b, some c] ∧
    rpopAll 3 (uploadRedis [] [a, b, c]) = [a, b, c] := by
  constructor <;> rfl

/-- C2 counterexample: part_002's `issueLink` selects its pool row with
`eq("used", false).limit(1)` and no `order` clause, so the backend may
return any unclaimed row; with the insertion order [a, b] and the
(permitted) newest-first row choice, the first claim returns b, not a. -/
theorem c2_counterexample :
    chooseNewestUnused [⟨0, ['a'], false⟩, ⟨1, ['b'], false⟩]
      = some ⟨1, ['b'], false⟩ ∧
    (⟨1, ['b'], false⟩ : PoolEntry) ∈
      [(⟨0, ['a'], false⟩ : PoolEntry), ⟨1, ['b'], false⟩] ∧
    (⟨1, ['b'], false⟩ : PoolEntry).used = false ∧
    (p002FirstClaim chooseNewestUnused
        [⟨0, ['a'], false⟩, ⟨1, ['b'], false⟩]).1 = some ['b'] ∧
    some (['b'] : Str) ≠ some ['a'] := by decide

/-- Any row the part_002 selector model returns really is one of the
unclaimed rows of the pool — it is a behaviour the unordered
`eq("used", false).limit(1)` query admits. -/
theorem chooseNewestUnused_valid (pool : Pool) (e : PoolEntry)
    (h : chooseNewestUnused pool = some e) : e ∈ pool ∧ e.used = false := by
  have main : ∀ (l : Pool) (acc : Option PoolEntry),
      (∀ x, acc = some x → x ∈ pool ∧ x.used = false) →
      (∀ y ∈ l, y ∈ pool) →
      ∀ x, l.foldl (fun acc2 e2 =>
        if e2.used = true then acc2
        else
          match acc2 with
          | none => some e2
          | some b2 => if b2.id < e2.id then some e2 else some b2) acc = some x →
        x ∈ pool ∧ x.used = false := by
    intro l
    induction l with
    | nil => intro acc hacc _ x hx; exact hacc x hx
    | cons y ys ih =>
      intro acc hacc hsub x hx
      refine ih _ ?_ (fun z hz => hsub z (List.mem_cons_of_mem y hz)) x hx
      intro z hz
      simp only [] at hz
      by_cases hy : y.used = true
      · rw [if_pos hy] at hz
        exact hacc z hz
      · rw [if_neg hy] at hz
        have hym : y ∈ pool := hsub y (List.mem_cons_self y ys)
        have hyu : y.used = false := by
          cases hu : y.used
          · rfl
          · exact absurd hu hy
        cases hacc2 : acc with
        | none =>
          rw [hacc2] at hz
          simp only at hz
          rw [← Option.some_inj.mp hz]
          exact ⟨hym, hyu⟩
        | some b2 =>
          rw [hacc2] at hz
          simp only at hz
          by_cases hlt : b2.id < y.id
          · rw [if_pos hlt] at hz
            rw [← Option.some_inj.mp hz]
            exact ⟨hym, hyu⟩
          · rw [if_neg hlt] at hz
            rw [← Option.some_inj.mp hz]
            exact hacc b2 (hacc2 ▸ rfl) |>.imp id id
  exact main pool none (fun x hx => by cases hx) (fun y hy => hy) e h

/-! ### Claim C8 — empty-pool behaviour. -/

theorem oldestUnused_eq_none (pool : Pool) (h : ∀ e ∈ pool, e.used = true) :
    oldestUnused pool = none := by
  have main : ∀ (l : Pool), (∀ e ∈ l, e.used = true) →
      ∀ acc : Option PoolEntry,
      l.foldl (fun acc2 e2 =>
        if e2.used = true then acc2
        else
          match acc2 with
          | none => some e2
          | some b2 => if e2.id < b2.id then some e2 else some b2) acc = acc := by
    intro l
    induction l with
    | nil => intro _ acc; rfl
    | cons y ys ih =>
      intro hall acc
      have hy : y.used = true := hall y (List.mem_cons_self y ys)
      simp only [List.foldl_cons, hy, if_true]
      exact ih (fun e he => hall e (List.mem_cons_of_mem y he)) acc
  exact main pool h none

/-- C8: a claim attempt against a pool with no unclaimed entry returns the
no-entries outcome and mutates nothing: the Redis `issueLinkForUser` with an
empty `pool` list replies empty and leaves the whole durable state (pool,
token records, issued list) unchanged, and the Supabase `popPoolItem` /
`popPoolItemWithRetry` select paths return null with the table untouched
when every row is already used. -/
theorem c8_empty_pool (tokens : Ledger) (issuedL : List Str) (bytes : List Nat)
    (now : Nat) (uid : Option Nat) (pool : Pool)
    (h2 : ∀ e ∈ pool, e.used = true) :
    issueLinkForUser ⟨[], tokens, issuedL⟩ bytes now uid
      = (IssueOutcome.empty, ⟨[], tokens, issuedL⟩) ∧
    popPoolItem pool = (none, pool) ∧
    popPoolItemSeq pool = (none, pool) := by
  have hnone := oldestUnused_eq_none pool h2
  exact ⟨rfl, by simp [popPoolItem, hnone], by simp [popPoolItemSeq, hnone]⟩

theorem c8_empty_pool_witness :
    issueLinkForUser ⟨[], [], []⟩ [0] 0 none
      = (IssueOutcome.empty, ⟨[], [], []⟩) :=
  (c8_empty_pool [] [] [0] 0 none [⟨0, ['a'], true⟩] (by decide)).1

/-! ### Claim C9 — bulk upload normalization and count. -/

theorem dropWhile_dropWhile (p : Char → Bool) (l : List Char) :
    (l.dropWhile p).dropWhile p = l.dropWhile p := by
  cases hd : l.dropWhile p with
  | nil => rfl
  | cons x xs =>
    have hx := List.head?_dropWhile_not p l
    rw [hd] at hx
    simp at hx
    simp [List.dropWhile_cons, hx]

theorem jsTrim_head (l : Str) : (jsTrim l).dropWhile isWS = jsTrim l := by
  cases hBr : ((l.dropWhile isWS).reverse.dropWhile isWS).reverse with
  | nil => show (jsTrim l).dropWhile isWS = jsTrim l; rw [jsTrim, hBr]; rfl
  | cons x xs =>
    have hsplit : (l.dropWhile isWS).reverse.takeWhile isWS ++
        (l.dropWhile isWS).reverse.dropWhile isWS = (l.dropWhile isWS).reverse :=
      List.takeWhile_append_dropWhile isWS ((l.dropWhile isWS).reverse)
    have hA2 : l.dropWhile isWS =
        ((l.dropWhile isWS).reverse.dropWhile isWS).reverse ++
        ((l.dropWhile isWS).reverse.takeWhile isWS).reverse := by
      conv_lhs => rw [← List.reverse_reverse (l.dropWhile isWS), ← hsplit,
        List.reverse_append]
    rw [hBr] at hA2
    have hxA : (l.dropWhile isWS).head? = some x := by rw [hA2]; rfl
    have hhead := List.head?_dropWhile_not isWS l
    rw [hxA] at hhead
    simp at hhead
    show (jsTrim l).dropWhile isWS = jsTrim l
    rw [jsTrim, hBr]
    simp [List.dropWhile_cons, hhead]

theorem jsTrim_idem (l : Str) : jsTrim (jsTrim l) = jsTrim l := by
  have h1 : (jsTrim l).dropWhile isWS = jsTrim l := jsTrim_head l
  show (((jsTrim l).dropWhile isWS).reverse.dropWhile isWS).reverse = jsTrim l
  rw [h1]
  have h2 : (jsTrim l).reverse = (l.dropWhile isWS).reverse.dropWhile isWS := by
    simp [jsTrim, List.reverse_reverse]
  rw [h2, dropWhile_dropWhile]
  simp [jsTrim]

theorem foldl_lpush (lines pool : List α) :
    lines.foldl lpush pool = lines.reverse ++ pool := by
  induction lines generalizing pool with
  | nil => rfl
  | cons x xs ih =>
    show xs.foldl lpush (x :: pool) = (x :: xs).reverse ++ pool
    rw [ih, List.reverse_cons, List.append_assoc]
    rfl

theorem insertPoolItems_bounded (n : Nat) : ∀ (rows : List Str),
    rows.length ≤ n → ∀ pool,
    insertPoolItems pool rows = (pool ++ rows, rows.length) := by
  induction n with
  | zero =>
    intro rows hlen pool
    have hnil : rows = [] := List.eq_nil_of_length_eq_zero (Nat.le_zero.mp hlen)
    subst hnil
    simp [insertPoolItems]
  | succ n ih =>
    intro rows hlen pool
    by_cases h : rows = []
    · subst h; simp [insertPoolItems]
    · have hpos : 1 ≤ rows.length := by
        cases rows with
        | nil => exact absurd rfl h
        | cons a t => simp
      rw [insertPoolItems, dif_neg h]
      have hrec := ih (rows.drop 500)
        (by simp only [List.length_drop]; omega) (pool ++ rows.take 500)
      show ((insertPoolItems (pool ++ rows.take 500) (rows.drop 500)).1,
        (rows.take 500).length +
          (insertPoolItems (pool ++ rows.take 500) (rows.drop 500)).2) =
        (pool ++ rows, rows.length)
      rw [hrec]
      have e1 : pool ++ rows.take 500 ++ rows.drop 500 = pool ++ rows := by
        rw [List.append_assoc, List.take_append_drop]
      have e2 : (rows.take 500).length + (rows.drop 500).length = rows.length := by
        simp only [List.length_take, List.length_drop]
        omega
      rw [e1, e2]

theorem insertPoolItems_eq (pool rows : List Str) :
    insertPoolItems pool rows = (pool ++ rows, rows.length) :=
  insertPoolItems_bounded rows.length rows (Nat.le_refl _) pool

/-- C9: upload normalization and counting.  Every surviving line is trimmed
and non-blank; with zero usable lines the handler answers the usage message
and leaves the pool untouched; otherwise the reported count is the number of
non-blank lines and exactly that many entries are prepended to the pool; and
the chunked `insertPoolItems` of part_001 likewise appends exactly the given
rows and reports their count. -/
theorem c9_upload_normalization (pool : List Str) (body : Str) :
    (∀ l ∈ normalizeLines body, jsTrim l = l ∧ l ≠ []) ∧
    (normalizeLines body = [] →
      uploadText pool body = (UploadReply.usage, pool)) ∧
    (normalizeLines body ≠ [] →
      uploadText pool body =
        (UploadReply.loaded (normalizeLines body).length,
          (normalizeLines body).foldl lpush pool) ∧
      ((normalizeLines body).foldl lpush pool).length =
        pool.length + (normalizeLines body).length) ∧
    insertPoolItems pool (normalizeLines body) =
      (pool ++ normalizeLines body, (normalizeLines body).length) := by
  refine ⟨?_, ?_, ?_, insertPoolItems_eq pool (normalizeLines body)⟩
  · intro l hl
    obtain ⟨hmap, hne⟩ := List.mem_filter.mp hl
    obtain ⟨raw, _, hraw⟩ := List.mem_map.mp hmap
    constructor
    · rw [← hraw]; exact jsTrim_idem raw
    · intro hnil
      rw [hnil] at hne
      simp at hne
  · intro h
    simp [uploadText, h]
  · intro h
    have hne : (normalizeLines body).isEmpty = false := by
      cases hc : normalizeLines body with
      | nil => exact absurd hc h
      | cons a t => rfl
    constructor
    · simp [uploadText, hne]
    · rw [foldl_lpush]
      simp [List.length_append]
      omega

theorem c9_upload_normalization_witness :
    uploadText [] [' ', 'a', '\n', 'b'] =
      (UploadReply.loaded (normalizeLines [' ', 'a', '\n', 'b']).length,
        (normalizeLines [' ', 'a', '\n', 'b']).foldl lpush []) :=
  ((c9_upload_normalization [] [' ', 'a', '\n', 'b']).2.2.1 (by decide)).1

/-! ### Claim C1 — at-most-once claiming under concurrency. -/

theorem countP_set {α : Type} (f : α → Bool) (l : List α) (j : Nat) (a b : α)
    (h : l[j]? = some a) :
    (l.set j b).countP f + (if f a then 1 else 0) =
      l.countP f + (if f b then 1 else 0) := by
  induction l generalizing j with
  | nil => simp at h
  | cons x xs ih =>
    cases j with
    | zero =>
      simp only [List.getElem?_cons_zero, Option.some_inj] at h
      subst h
      simp only [List.set_cons_zero, List.countP_cons]
      cases hfb : f b <;> cases hfx : f x <;> simp [hfb, hfx] <;> omega
    | succ j2 =>
      simp only [List.getElem?_cons_succ] at h
      have hih := ih j2 h
      simp only [List.set_cons_succ, List.countP_cons]
      cases hfa : f a <;> cases hfb : f b <;> cases hfx : f x <;>
        simp [hfa, hfb, hfx] at hih ⊢ <;> omega

theorem claimsId_ready_false (i t : Nat) :
    claimsId i (ClaimState.ready t) = false := by
  unfold claimsId
  simp only [decide_eq_false_iff_not]
  intro hcontra
  exact ClaimState.noConfusion hcontra

theorem claimsId_selected_false (i t i0 : Nat) :
    claimsId i (ClaimState.selected t i0) = false := by
  unfold claimsId
  simp only [decide_eq_false_iff_not]
  intro hcontra
  exact ClaimState.noConfusion hcontra

theorem claimsId_done_none_false (i : Nat) :
    claimsId i (ClaimState.done none) = false := by
  unfold claimsId
  simp only [decide_eq_false_iff_not]
  intro hcontra
  injection hcontra with h2
  exact Option.noConfusion h2

theorem claimsId_done_self (i : Nat) :
    claimsId i (ClaimState.done (some i)) = true := by
  unfold claimsId
  simp

theorem claimsId_done_ne (i i0 : Nat) (h : ¬ i0 = i) :
    claimsId i (ClaimState.done (some i0)) = false := by
  unfold claimsId
  simp only [decide_eq_false_iff_not]
  intro hcontra
  injection hcontra with h2
  injection h2 with h3
  exact h h3

theorem claimCount_set_eq (procs : List ClaimState) (j : Nat)
    (ps ps2 : ClaimState) (hj : procs[j]? = some ps) (i : Nat)
    (h1 : claimsId i ps = false) (h2 : claimsId i ps2 = false) :
    claimCount (procs.set j ps2) i = claimCount procs i := by
  have hc := countP_set (claimsId i) procs j ps ps2 hj
  rw [h1, h2] at hc
  simpa using hc

theorem claimCount_set_succ (procs : List ClaimState) (j : Nat)
    (ps ps2 : ClaimState) (hj : procs[j]? = some ps) (i : Nat)
    (h1 : claimsId i ps = false) (h2 : claimsId i ps2 = true) :
    claimCount (procs.set j ps2) i = claimCount procs i + 1 := by
  have hc := countP_set (claimsId i) procs j ps ps2 hj
  rw [h1, h2] at hc
  simpa using hc

theorem condMarkUsed_noUnused (pool : Pool) (i : Nat) :
    noUnusedId (condMarkUsed pool i).1 i := by
  intro e2 he2 hid
  have he2b : e2 ∈ pool.map (fun e =>
      if e.id = i ∧ e.used = false then { e with used := true } else e) := he2
  obtain ⟨e, he, hfe⟩ := List.mem_map.mp he2b
  by_cases hc : e.id = i ∧ e.used = false
  · rw [if_pos hc] at hfe
    rw [← hfe]
  · rw [if_neg hc] at hfe
    subst hfe
    cases hu : e.used
    · exact absurd ⟨hid, hu⟩ hc
    · rfl

theorem condMarkUsed_preserves_noUnused (pool : Pool) (i j : Nat)
    (h : noUnusedId pool j) : noUnusedId (condMarkUsed pool i).1 j := by
  intro e2 he2 hid
  have he2b : e2 ∈ pool.map (fun e =>
      if e.id = i ∧ e.used = false then { e with used := true } else e) := he2
  obtain ⟨e, he, hfe⟩ := List.mem_map.mp he2b
  by_cases hc : e.id = i ∧ e.used = false
  · rw [if_pos hc] at hfe
    rw [← hfe]
  · rw [if_neg hc] at hfe
    subst hfe
    exact h e he hid

theorem condMarkUsed_true_not_noUnused (pool : Pool) (i : Nat)
    (h : (condMarkUsed pool i).2 = true) : ¬ noUnusedId pool i := by
  intro hn
  have h2 : pool.any (fun e => decide (e.id = i ∧ e.used = false)) = true := h
  obtain ⟨e, he, hdec⟩ := List.any_eq_true.mp h2
  have h3 : e.id = i ∧ e.used = false := of_decide_eq_true hdec
  have h4 := hn e he h3.1
  rw [h3.2] at h4
  exact Bool.false_ne_true h4

theorem claimCount_set_same (procs : List ClaimState) (j : Nat) (ps : ClaimState)
    (hj : procs[j]? = some ps) (i : Nat) :
    claimCount (procs.set j ps) i = claimCount procs i := by
  have hc := countP_set (claimsId i) procs j ps ps hj
  cases hcl : claimsId i ps <;> rw [hcl] at hc <;> simp at hc <;> exact hc

theorem retryStep_preserves (pool : Pool) (procs : List ClaimState) (j : Nat)
    (h : AtMostOnceInv pool procs) :
    AtMostOnceInv (stepProc retryStep (pool, procs) j).1
      (stepProc retryStep (pool, procs) j).2 := by
  cases hj : procs[j]? with
  | none =>
    have e : stepProc retryStep (pool, procs) j = (pool, procs) := by
      simp [stepProc, hj]
    rw [e]
    exact h
  | some ps =>
    have e : stepProc retryStep (pool, procs) j =
        ((retryStep pool ps).1, procs.set j (retryStep pool ps).2) := by
      simp [stepProc, hj]
    rw [e]
    cases ps with
    | done r =>
      show AtMostOnceInv pool (procs.set j (ClaimState.done r))
      intro i
      rw [claimCount_set_same procs j (ClaimState.done r) hj i]
      exact h i
    | ready t =>
      cases t with
      | zero =>
        show AtMostOnceInv pool (procs.set j (ClaimState.done none))
        intro i
        rw [claimCount_set_eq procs j (ClaimState.ready 0) (ClaimState.done none)
          hj i (claimsId_ready_false i 0) (claimsId_done_none_false i)]
        exact h i
      | succ t2 =>
        cases ho : oldestUnused pool with
        | none =>
          have her : retryStep pool (ClaimState.ready (t2 + 1)) =
              (pool, ClaimState.done none) := by
            simp [retryStep, ho]
          rw [her]
          show AtMostOnceInv pool (procs.set j (ClaimState.done none))
          intro i
          rw [claimCount_set_eq procs j (ClaimState.ready (t2 + 1))
            (ClaimState.done none) hj i (claimsId_ready_false i (t2 + 1))
            (claimsId_done_none_false i)]
          exact h i
        | some e2 =>
          have her : retryStep pool (ClaimState.ready (t2 + 1)) =
              (pool, ClaimState.selected (t2 + 1) e2.id) := by
            simp [retryStep, ho]
          rw [her]
          show AtMostOnceInv pool (procs.set j (ClaimState.selected (t2 + 1) e2.id))
          intro i
          rw [claimCount_set_eq procs j (ClaimState.ready (t2 + 1))
            (ClaimState.selected (t2 + 1) e2.id) hj i
            (claimsId_ready_false i (t2 + 1))
            (claimsId_selected_false i (t2 + 1) e2.id)]
          exact h i
    | selected t i0 =>
      by_cases hok : (condMarkUsed pool i0).2 = true
      · have her : retryStep pool (ClaimState.selected t i0) =
            ((condMarkUsed pool i0).1, ClaimState.done (some i0)) := by
          simp [retryStep, hok]
        rw [her]
        show AtMostOnceInv (condMarkUsed pool i0).1
          (procs.set j (ClaimState.done (some i0)))
        intro i
        by_cases hi : i0 = i
        · subst hi
          rw [claimCount_set_succ procs j (ClaimState.selected t i0)
            (ClaimState.done (some i0)) hj i0
            (claimsId_selected_false i0 t i0) (claimsId_done_self i0)]
          have hzero : claimCount procs i0 = 0 := by
            by_contra hnz
            have h1 : 1 ≤ claimCount procs i0 := Nat.one_le_iff_ne_zero.mpr hnz
            exact condMarkUsed_true_not_noUnused pool i0 hok ((h i0).2 h1)
          rw [hzero]
          exact ⟨by omega, fun _ => condMarkUsed_noUnused pool i0⟩
        · rw [claimCount_set_eq procs j (ClaimState.selected t i0)
            (ClaimState.done (some i0)) hj i
            (claimsId_selected_false i t i0) (claimsId_done_ne i i0 hi)]
          exact ⟨(h i).1, fun hone =>
            condMarkUsed_preserves_noUnused pool i0 i ((h i).2 hone)⟩
      · have her : retryStep pool (ClaimState.selected t i0) =
            ((condMarkUsed pool i0).1, ClaimState.ready (t - 1)) := by
          simp [retryStep, hok]
        rw [her]
        show AtMostOnceInv (condMarkUsed pool i0).1
          (procs.set j (ClaimState.ready (t - 1)))
        intro i
        rw [claimCount_set_eq procs j (ClaimState.selected t i0)
          (ClaimState.ready (t - 1)) hj i
          (claimsId_selected_false i t i0) (claimsId_ready_false i (t - 1))]
        exact ⟨(h i).1, fun hone =>
          condMarkUsed_preserves_noUnused pool i0 i ((h i).2 hone)⟩

theorem runSched_retry_inv (sched : List Nat) :
    ∀ s : Pool × List ClaimState, AtMostOnceInv s.1 s.2 →
    AtMostOnceInv (runSched retryStep sched s).1
      (runSched retryStep sched s).2 := by
  induction sched with
  | nil => intro s h; exact h
  | cons j rest ih =>
    intro s h
    show AtMostOnceInv (runSched retryStep rest (stepProc retryStep s j)).1
      (runSched retryStep rest (stepProc retryStep s j)).2
    exact ih _ (retryStep_preserves s.1 s.2 j h)

theorem replicate_ready_inv (pool : Pool) (n k : Nat) :
    AtMostOnceInv pool (List.replicate n (ClaimState.ready k)) := by
  intro i
  have hz : claimCount (List.replicate n (ClaimState.ready k)) i = 0 := by
    apply List.countP_eq_zero.mpr
    intro a ha
    rw [List.eq_of_mem_replicate ha]
    simp [claimsId_ready_false]
  rw [hz]
  exact ⟨Nat.zero_le 1, fun hcon => absurd hcon (by omega)⟩

/-- C1 (amended): at-most-once claiming holds for part_001's
`popPoolItemWithRetry` — its mark-used update carries the still-unclaimed
precondition, so over every interleaving of any number of concurrent
claimants with any retry budget, every pool entry id is returned to at most
one claimant, and a claimant that loses the conditional update retries
instead of treating the entry as its own.  part_000's `popPoolItem` (also
cited by the claim) lacks the precondition and violates the property — see
the counterexample. -/
theorem c1_at_most_once_claim (sched : List Nat) (pool : Pool) (n k i : Nat) :
    claimCount (runSched retryStep sched
      (pool, List.replicate n (ClaimState.ready k))).2 i ≤ 1 :=
  (runSched_retry_inv sched (pool, List.replicate n (ClaimState.ready k))
    (replicate_ready_inv pool n k) i).1

/-- C1 counterexample: part_000's `popPoolItem` marks the selected row used
with no `used = false` precondition, so the claim as stated (covering that
cited symbol) fails: with one unclaimed entry and two concurrent callers
interleaved select-select-update-update, both callers finish holding entry 0
— it is claimed twice. -/
theorem c1_counterexample :
    claimCount (runSched simpleStep [0, 1, 0, 1]
      ([⟨0, ['a'], false⟩], [ClaimState.ready 1, ClaimState.ready 1])).2 0
      = 2 := by decide
